import Mathlib

/-!
Shallow embedding of the Resonance v13.3 WebSocket breakout scanner
(vendor file resonance_scannerv13_3_ws.py).

Conventions.  Prices, sizes, timestamps and indicator values (Python
floats) are modelled as rationals; bucket starts (Python ints) as
integers.  Python dictionaries keyed by instrument are modelled as total
functions from `String`; the candle aggregator `CandleAgg`, whose two
dictionaries `cur`/`hist` are read and written one key at a time, is
modelled by the state of a single instrument.  Python exceptions that
the scanner can actually raise in the embedded fragment
(ZeroDivisionError in `compute_rsi` for period 0, IndexError in `ema`
on an empty list) are modelled with `Except Unit`.
-/

namespace Resonance

/-- One OHLCV candle: the dict with keys b,o,h,l,c,v kept by `CandleAgg`
(also the list `[b,o,h,l,c,v]` stored in `hist`). -/
structure Candle where
  b : ℤ
  o : ℚ
  h : ℚ
  l : ℚ
  c : ℚ
  v : ℚ
deriving DecidableEq

/-- State of `CandleAgg` restricted to one instrument: the interval and
lookback (`self.intv`, `self.look`), the in-progress candle
(`self.cur[pid]`, with `None`/missing as `none`) and the finalized
history `self.hist[pid]` (missing key as `[]`). -/
structure AggState where
  intv : ℤ
  look : ℕ
  cur : Option Candle
  hist : List Candle
deriving DecidableEq

/-- Embeds `CandleAgg._bucket`: `int(tsec - (tsec % self.intv))`.  For a
positive interval, Python float modulo gives
`tsec % intv = tsec - intv*floor(tsec/intv)`, so the bucket is
`intv * floor(tsec/intv)` (an exact multiple, so `int` truncation is the
identity on it). -/
def bucket (intv : ℤ) (tsec : ℚ) : ℤ := intv * ⌊tsec / (intv : ℚ)⌋

/-- Same-bucket branch of `CandleAgg.on_trade` (lines 310-313):
`cd["c"] = price; if price > cd["h"]: ...; if price < cd["l"]: ...;
cd["v"] += size`. -/
def tick (cd : Candle) (price size : ℚ) : Candle :=
  { cd with
      c := price
      h := if cd.h < price then price else cd.h
      l := if price < cd.l then price else cd.l
      v := cd.v + size }

/-- Embeds `CandleAgg._finalize`: append the candle to the history and
drop the oldest entries when the history exceeds the lookback
(`del h[:len(h) - self.look]`). -/
def finalize_push (look : ℕ) (hist : List Candle) (cd : Candle) : List Candle :=
  let h := hist ++ [cd]
  if look < h.length then h.drop (h.length - look) else h

/-- Embeds `CandleAgg.on_trade` for one instrument.  If there is no
in-progress candle or its bucket differs from the trade's bucket, the
in-progress candle (if any) is finalized and a fresh candle is opened;
otherwise the in-progress candle is updated in place. -/
def on_trade (price size tsec : ℚ) (st : AggState) : AggState :=
  let b := bucket st.intv tsec
  match st.cur with
  | none => { st with cur := some ⟨b, price, price, price, price, size⟩ }
  | some cd =>
    if cd.b ≠ b then
      { st with hist := finalize_push st.look st.hist cd
              , cur := some ⟨b, price, price, price, price, size⟩ }
    else
      { st with cur := some (tick cd price size) }

/-- Embeds `CandleAgg.flush_if_due` for one instrument: finalize the
in-progress candle once `now_ts - cd["b"] >= self.intv`, setting
`self.cur[pid] = None`. -/
def flush_if_due (now : ℚ) (st : AggState) : AggState :=
  match st.cur with
  | none => st
  | some cd =>
    if (st.intv : ℚ) ≤ now - (cd.b : ℚ) then
      { st with hist := finalize_push st.look st.hist cd, cur := none }
    else st

/-- Feeds a list of trades `(price, size, tsec)` in order to `on_trade`. -/
def feed (trades : List (ℚ × ℚ × ℚ)) (st : AggState) : AggState :=
  trades.foldl (fun s t => on_trade t.1 t.2.1 t.2.2 s) st

/-- Python slice `xs[-n:]` for a nonnegative `n`.  Note that `xs[-0:]`
is the whole list, exactly like `xs[0:]`. -/
def lastSlice (n : ℕ) (l : List α) : List α :=
  if n = 0 then l else l.drop (l.length - n)

/-- Wilder smoothing step `avg = (avg*(period-1) + x) / period` used in
`compute_rsi`'s loop. -/
def wilderStep (period : ℕ) (avg x : ℚ) : ℚ :=
  (avg * ((period : ℚ) - 1) + x) / (period : ℚ)

/-- Wilder recursive smoothing of a seed average over a list of values
(the spec's `avg = (avg*(period-1) + newValue)/period` applied for each
subsequent delta). -/
def wilderSmooth (period : ℕ) (seed : ℚ) (vals : List ℚ) : ℚ :=
  vals.foldl (wilderStep period) seed

/-- Embeds `compute_rsi`.  The deltas `closes[i+1] - closes[i]` are
`zipWith` of the tail against the list; the loop
`for i in range(period, len(deltas))` reading `gains[i]`/`losses[i]` in
order is a fold over `drop period`.  For `period = 0` with the length
guard passed, Python raises ZeroDivisionError at
`sum(gains[:period]) / period`; that is the `.error` case. -/
def compute_rsi (closes : List ℚ) (period : ℕ) : Except Unit (Option ℚ) :=
  if closes.length < period + 1 then .ok none
  else if period = 0 then .error ()
  else
    let deltas := List.zipWith (· - ·) closes.tail closes
    let gains := deltas.map (fun d => if 0 < d then d else 0)
    let losses := deltas.map (fun d => if d < 0 then -d else 0)
    let avgGain := wilderSmooth period ((gains.take period).sum / (period : ℚ)) (gains.drop period)
    let avgLoss := wilderSmooth period ((losses.take period).sum / (period : ℚ)) (losses.drop period)
    if avgLoss = 0 then .ok (some 100)
    else .ok (some (100 - 100 / (1 + avgGain / avgLoss)))

/-- Tail of the exponential moving average: given the previous EMA value,
produce the remaining EMA entries (`e.append((v - e[-1])*k + e[-1])`). -/
def emaAux (k : ℚ) (prev : ℚ) : List ℚ → List ℚ
  | [] => []
  | v :: vs =>
    let e := (v - prev) * k + prev
    e :: emaAux k e vs

/-- Embeds `ema`: `e = [vals[0]]` raises IndexError on an empty list,
modelled as `.error`. -/
def ema (vals : List ℚ) (period : ℕ) : Except Unit (List ℚ) :=
  let k : ℚ := 2 / ((period : ℚ) + 1)
  match vals with
  | [] => .error ()
  | v :: vs => .ok (v :: emaAux k v vs)

/-- Result dict of `compute_macd`. -/
structure MacdInfo where
  macd : ℚ
  signal : ℚ
  hist : ℚ
deriving DecidableEq

/-- Embeds `compute_macd`.  Since `ema` preserves length,
`e_fast[-len(e_slow):]` is the whole fast EMA list; the zip, the signal
EMA and the final `[-1]` accesses are kept as in the source. -/
def compute_macd (closes : List ℚ) (fast slow sig : ℕ) :
    Except Unit (Option MacdInfo) :=
  if closes.length < slow + sig then .ok none
  else
    match ema closes fast, ema closes slow with
    | .ok eFast, .ok eSlow =>
      match ema (List.zipWith (· - ·) (lastSlice eSlow.length eFast) eSlow) sig with
      | .ok signalLine =>
        match (List.zipWith (· - ·) (lastSlice eSlow.length eFast) eSlow).getLast?,
            signalLine.getLast? with
        | some m, some s => .ok (some ⟨m, s, m - s⟩)
        | _, _ => .error ()
      | .error _ => .error ()
    | .error _, _ => .error ()
    | _, .error _ => .error ()

/-- Maximum of a list as Python's `max` on a nonempty list (the scanner
only applies it to slices of length at least 2; the `[]` case is a
junk value, never reached under the guards of the callers). -/
def maxList : List ℚ → ℚ
  | [] => 0
  | x :: xs => xs.foldl max x

/-- Diagnostic dict returned by `is_breakout_window` on windows of
length at least 3. -/
structure BreakoutInfo where
  last : ℚ
  max_high : ℚ
  pct_over : ℚ
  vol_ratio : ℚ
  usd_per_min : ℚ
deriving DecidableEq

/-- Last close of a window (`closes[-1]`; the callers guarantee a
nonempty window). -/
def bkLastClose (cset : List Candle) : ℚ := (cset.map (·.c)).getLastD 0

/-- Maximum high over all candles except the last (`max(highs[:-1])`). -/
def bkMaxHigh (cset : List Candle) : ℚ := maxList (cset.map (·.h)).dropLast

/-- Average volume over all candles except the last
(`sum(vols[:-1]) / max(len(vols[:-1]), 1)`). -/
def bkPrevAvgVol (cset : List Candle) : ℚ :=
  let prevVols := (cset.map (·.v)).dropLast
  prevVols.sum / (max prevVols.length 1 : ℕ)

/-- Last volume of a window (`vols[-1]`). -/
def bkLastVol (cset : List Candle) : ℚ := (cset.map (·.v)).getLastD 0

/-- USD traded in the last candle, `usd = last_vol * last_close`. -/
def bkUsd (cset : List Candle) : ℚ := bkLastVol cset * bkLastClose cset

/-- Percent over the prior high,
`(last_close/max_high - 1.0) if max_high > 0 else 0.0`. -/
def bkPctOver (cset : List Candle) : ℚ :=
  if 0 < bkMaxHigh cset then bkLastClose cset / bkMaxHigh cset - 1 else 0

/-- Volume ratio,
`(last_vol/prev_avg_vol) if prev_avg_vol > 0 else 0.0`. -/
def bkVolRatio (cset : List Candle) : ℚ :=
  if 0 < bkPrevAvgVol cset then bkLastVol cset / bkPrevAvgVol cset else 0

/-- Embeds `is_breakout_window`, with the intermediate values named by
the definitions above.  Returns the hit flag plus the info dict
(`none` standing for the empty dict of the short-window case).  The
hit test is the source's
`last_close > max_high * (1.0 + pct_over_high) and
vol_ratio >= vol_ratio_required and usd >= abs_usd_floor`. -/
def is_breakout_window (cset : List Candle)
    (pctOverHigh volRatioRequired absUsdFloor : ℚ) :
    Bool × Option BreakoutInfo :=
  if cset.length < 3 then (false, none)
  else
    (decide (bkMaxHigh cset * (1 + pctOverHigh) < bkLastClose cset) &&
      decide (volRatioRequired ≤ bkVolRatio cset) &&
      decide (absUsdFloor ≤ bkUsd cset),
     some ⟨bkLastClose cset, bkMaxHigh cset, bkPctOver cset,
       bkVolRatio cset, bkUsd cset⟩)

/-- Configuration knobs read by `apply_filters` and its helpers, i.e.
the module-level constants parsed from the envelope. -/
structure FilterCfg where
  filtersEnable : Bool
  filterLogic : String
  rsiEnable : Bool
  rsiPreset : String
  rsiPeriod : ℕ
  rsiMin : ℚ
  rsiMax : ℚ
  vpmEnable : Bool
  vpmLook : ℕ
  vpmFloor : ℚ
  macdEnable : Bool
  macdRule : String
  macdFast : ℕ
  macdSlow : ℕ
  macdSig : ℕ

/-- Details dict filled in by `apply_filters`. -/
structure FilterDetails where
  rsi : Option ℚ
  vpm_avg_usd : Option ℚ
  macd_hist : Option ℚ
deriving DecidableEq

/-- Embeds `rsi_bounds_from_preset`. -/
def rsi_bounds_from_preset (preset : String) (defLow defHigh : ℚ) : ℚ × ℚ :=
  if preset = "SCALP" then (45, 72)
  else if preset = "BALANCED" ∨ preset = "DEFAULT" then (50, 70)
  else if preset = "STRICT" then (52, 68)
  else (defLow, defHigh)

/-- USD value of a candle, `c[5]*c[4]` (volume times close). -/
def usdOf (c : Candle) : ℚ := c.v * c.c

/-- Average USD per minute compared against the floor in the VPM branch
of `apply_filters`: `usd_vals = [c[5]*c[4] for c in candles[-look:]];
prev = usd_vals[:-1] if len(usd_vals) > 1 else usd_vals;
avg = sum(prev)/max(len(prev),1)`. -/
def vpm_avg (look : ℕ) (candles : List Candle) : ℚ :=
  let usdVals := (lastSlice look candles).map usdOf
  let prev := if 1 < usdVals.length then usdVals.dropLast else usdVals
  prev.sum / (max prev.length 1 : ℕ)

/-- Formalises the spec sentence for `rollingVolumeUsd`: the mean of
volume times close over the most recent `look` candles excluding the
current (latest) one.  The mean of the empty collection is rendered by
rational division as 0. -/
def spec_vpm_avg (look : ℕ) (candles : List Candle) : ℚ :=
  let prevs := (lastSlice look candles).dropLast
  (prevs.map usdOf).sum / (prevs.length : ℕ)

/-- MACD pass rule of `apply_filters` (hist_up, line_cross, or both). -/
def macd_rule_pass (rule : String) (m : MacdInfo) : Bool :=
  if rule = "hist_up" then decide (0 < m.hist)
  else if rule = "line_cross" then decide (m.signal < m.macd)
  else decide (0 < m.hist) && decide (m.signal < m.macd)

/-- RSI check of `apply_filters`:
`pass_rsi = True if not RSI_ENABLE else (True if rsi_val is None else
(rsi_low <= rsi_val <= rsi_high))`, with the preset bounds. -/
def rsiPassOf (cfg : FilterCfg) (rsiVal : Option ℚ) : Bool :=
  if cfg.rsiEnable = false then true
  else
    match rsiVal with
    | none => true
    | some v =>
      decide ((rsi_bounds_from_preset cfg.rsiPreset cfg.rsiMin cfg.rsiMax).1 ≤ v) &&
      decide (v ≤ (rsi_bounds_from_preset cfg.rsiPreset cfg.rsiMin cfg.rsiMax).2)

/-- VPM check of `apply_filters` (pass flag together with the detail
value): computed only when the filter is enabled and
`len(candles) >= max(VOLMIN_LOOK, 2)`, otherwise a default pass with no
detail. -/
def vpmPartOf (cfg : FilterCfg) (candles : List Candle) : Bool × Option ℚ :=
  if cfg.vpmEnable = true ∧ max cfg.vpmLook 2 ≤ candles.length then
    (decide (cfg.vpmFloor ≤ vpm_avg cfg.vpmLook candles),
      some (vpm_avg cfg.vpmLook candles))
  else (true, none)

/-- MACD check of `apply_filters`: applies the configured rule when a
MACD value was computed, otherwise a default pass with no detail. -/
def macdPartOf (cfg : FilterCfg) (macdInfo : Option MacdInfo) : Bool × Option ℚ :=
  match macdInfo with
  | some m => (macd_rule_pass cfg.macdRule m, some m.hist)
  | none => (true, none)

/-- Combination of the individual checks:
`all(checks) if FILTER_LOGIC == "ALL" else any(checks)`. -/
def combineOf (cfg : FilterCfg) (checks : List Bool) : Bool :=
  if cfg.filterLogic = "ALL" then checks.all id else checks.any id

/-- Embeds `apply_filters`, parameterised by the configuration instead
of the module-level globals, with the three checks named by the
definitions above.  A possible ZeroDivisionError from `compute_rsi`
(RSI enabled with period 0) or IndexError from `compute_macd`
propagates as `.error`. -/
def apply_filters (cfg : FilterCfg) (candles : List Candle) :
    Except Unit (Bool × FilterDetails) :=
  if cfg.filtersEnable = false then .ok (true, ⟨none, none, none⟩)
  else
    match (if cfg.rsiEnable then compute_rsi (candles.map (·.c)) cfg.rsiPeriod
        else .ok none) with
    | .error e => .error e
    | .ok rsiVal =>
      match (if cfg.macdEnable then
          compute_macd (candles.map (·.c)) cfg.macdFast cfg.macdSlow cfg.macdSig
        else .ok none) with
      | .error e => .error e
      | .ok macdInfo =>
        .ok (combineOf cfg [rsiPassOf cfg rsiVal, (vpmPartOf cfg candles).1,
            (macdPartOf cfg macdInfo).1],
          ⟨rsiVal, (vpmPartOf cfg candles).2, (macdPartOf cfg macdInfo).2⟩)

/-- Embeds `is_duplicate`, with the module-level `_last_alert_ts`
dictionary made explicit (a never-alerted pair maps to `none`;
`dict.get(pair, 0.0)` is `getD 0`) and `time.time()` passed in as
`now`. -/
def is_duplicate (pair : String) (minSeconds now : ℚ)
    (st : String → Option ℚ) : Bool × (String → Option ℚ) :=
  let last := (st pair).getD 0
  if now - last < minSeconds then (true, st)
  else (false, fun p => if p = pair then some now else st p)

/-- One HTTP response as seen by `_post_webhook`: either the
`requests.post` call raised, or a status code together with the
`retry_after` field of the JSON body (outer `none` when the body is not
JSON, inner `none` when the key is absent) and the numeric value of the
Retry-After header (`none` when absent or empty). -/
inductive Resp where
  | exc : Resp
  | status (code : ℕ) (bodyRetry : Option (Option ℚ)) (headerRetry : Option ℚ) : Resp
deriving DecidableEq

/-- Success-range test `200 <= r.status_code < 300`. -/
def is2xxB : Resp → Bool
  | .exc => false
  | .status code _ _ => decide (200 ≤ code ∧ code < 300)

/-- Rate-limit test `r.status_code == 429`. -/
def is429B : Resp → Bool
  | .exc => false
  | .status code _ _ => decide (code = 429)

/-- Sleep duration computed on a 429: `wait = 1.0;
try: wait = float(r.json().get("retry_after", wait))
except: wait = float(r.headers.get("Retry-After", wait) or 1.0);
wait = max(0.0, wait)`. -/
def waitOf : Resp → ℚ
  | .exc => 0
  | .status _ bodyRetry headerRetry =>
    let w := match bodyRetry with
      | some b => b.getD 1
      | none => headerRetry.getD 1
    max 0 w

/-- Embeds the retry loop of `_post_webhook` over an oracle giving the
response to each attempt, shifting the oracle on recursion.  Returns
the final result, the number of POST attempts made, and the list of
sleep durations taken (one per 429 received). -/
def post_webhook_aux (fuel : ℕ) (env : ℕ → Resp) : Bool × ℕ × List ℚ :=
  match fuel with
  | 0 => (false, 0, [])
  | fuel + 1 =>
    match env 0 with
    | .exc => (false, 1, [])
    | .status code _ _ =>
      if 200 ≤ code ∧ code < 300 then (true, 1, [])
      else if code = 429 then
        let rest := post_webhook_aux fuel (fun i => env (i + 1))
        (rest.1, rest.2.1 + 1, waitOf (env 0) :: rest.2.2)
      else (false, 1, [])

/-- Embeds `_post_webhook`: `for attempt in range(1, 6)`, i.e. at most
five attempts. -/
def post_webhook_run (env : ℕ → Resp) : Bool × ℕ × List ℚ :=
  post_webhook_aux 5 env

/-- One line of the universe file as far as `load_pairs` looks at it:
either a line whose processing raises inside the `try` block (malformed
JSON, or JSON that is not an object), or an object with its optional
`pair` and `ex_symbol` string fields. -/
inductive ULine where
  | bad : ULine
  | row (pair : Option String) (exsym : Option String) : ULine
deriving DecidableEq

/-- Python truthiness on an optional string: `None` and the empty
string are falsy. -/
def truthyStr : Option String → Option String
  | none => none
  | some s => if s = "" then none else some s

/-- Symbol extracted from one line:
`pid = row.get("pair") or row.get("ex_symbol"); if pid: out.append(pid)`. -/
def pidOf : ULine → Option String
  | .bad => none
  | .row p e =>
    truthyStr (match truthyStr p with
      | some s => some s
      | none => e)

/-- Embeds `load_pairs`: `none` is a missing universe file; otherwise
the readable lines.  A missing file, or a file yielding no usable
symbol, falls back to the default pair list (`return out or [...]`). -/
def load_pairs : Option (List ULine) → List String
  | none => ["BTC-USD", "ETH-USD"]
  | some lines =>
    let out := lines.filterMap pidOf
    if out = [] then ["BTC-USD", "ETH-USD"] else out

/-- One row of the Coinbase REST candle response
`[time, low, high, open, close, volume]`. -/
structure RestRow where
  t : ℤ
  lo : ℚ
  hi : ℚ
  op : ℚ
  cl : ℚ
  vo : ℚ
deriving DecidableEq

/-- Reordering done in `seed_from_rest`:
`mapped = [[t, o, h, l, c, v] for (t, l, h, o, c, v) in data]`. -/
def mapRow (r : RestRow) : Candle := ⟨r.t, r.op, r.hi, r.lo, r.cl, r.vo⟩

/-- Embeds `seed_from_rest` acting on the history map of a fresh
aggregator: for each pair with nonempty REST data, install the last
`min(bars, look)` mapped rows; pairs with empty data (fetch failure or
non-list payload) keep their existing (empty) history.  With
`bars = 0` the function returns without touching anything. -/
def seed_from_rest (pairsList : List String) (bars look : ℕ)
    (rest : String → List RestRow) (hist0 : String → List Candle) :
    String → List Candle :=
  if bars = 0 then hist0
  else fun pid =>
    if pid ∈ pairsList ∧ rest pid ≠ [] then
      lastSlice (min bars look) ((rest pid).map mapRow)
    else hist0 pid

/-- Tracked universe plus the per-instrument finalized-candle history of
the current aggregator, as far as the hot-reload branch of `main`
touches them. -/
structure ScanState where
  pairs : List String
  hist : String → List Candle

/-- Set equality of the two pair lists, `set(new_pairs) != set(pairs)`
negated. -/
def sameSet (a b : List String) : Bool :=
  a.all (· ∈ b) && b.all (· ∈ a)

/-- Embeds the hot-reload transition of `main` (the universe-change
branch): when the new pair list differs as a set, the running
aggregator is replaced by a freshly constructed `CandleAgg` (all
histories empty), optionally seeded from REST, and the pair list is
replaced; otherwise nothing changes. -/
def universe_step (st : ScanState) (newPairs : List String)
    (backfillEnabled : Bool) (bars look : ℕ)
    (rest : String → List RestRow) : ScanState :=
  if sameSet newPairs st.pairs then st
  else
    let empty : String → List Candle := fun _ => []
    let seeded :=
      if backfillEnabled && decide (0 < bars) then
        seed_from_rest newPairs bars look rest empty
      else empty
    ⟨newPairs, seeded⟩

/-! ### Helper lemmas -/

theorem if_lt_eq_max (a b : ℚ) : (if a < b then b else a) = max a b := by
  rcases lt_or_le a b with h | h
  · rw [if_pos h, max_eq_right h.le]
  · rw [if_neg (not_lt.mpr h), max_eq_left h]

theorem if_lt_eq_min (a b : ℚ) : (if b < a then b else a) = min a b := by
  rcases lt_or_le b a with h | h
  · rw [if_pos h, min_eq_right h.le]
  · rw [if_neg (not_lt.mpr h), min_eq_left h]

theorem le_foldl_max (a : ℚ) (l : List ℚ) : a ≤ l.foldl max a := by
  induction l generalizing a with
  | nil => simp
  | cons x xs ih => exact le_trans (le_max_left a x) (ih (max a x))

theorem mem_le_foldl_max (a : ℚ) (l : List ℚ) : ∀ x ∈ l, x ≤ l.foldl max a := by
  induction l generalizing a with
  | nil => simp
  | cons y ys ih =>
    intro x hx
    rcases List.mem_cons.mp hx with h | h
    · subst h
      exact le_trans (le_max_right a x) (le_foldl_max _ _)
    · exact ih _ x h

theorem foldl_max_mem (a : ℚ) (l : List ℚ) : l.foldl max a = a ∨ l.foldl max a ∈ l := by
  induction l generalizing a with
  | nil => left; rfl
  | cons y ys ih =>
    rw [List.foldl_cons]
    rcases ih (max a y) with h | h
    · rcases max_choice a y with h1 | h1
      · left; rw [h, h1]
      · right; rw [h, h1]; exact List.mem_cons_self y ys
    · right; exact List.mem_cons_of_mem y h

theorem foldl_min_le (a : ℚ) (l : List ℚ) : l.foldl min a ≤ a := by
  induction l generalizing a with
  | nil => simp
  | cons x xs ih => exact le_trans (ih (min a x)) (min_le_left a x)

theorem foldl_min_le_mem (a : ℚ) (l : List ℚ) : ∀ x ∈ l, l.foldl min a ≤ x := by
  induction l generalizing a with
  | nil => simp
  | cons y ys ih =>
    intro x hx
    rcases List.mem_cons.mp hx with h | h
    · subst h
      rw [List.foldl_cons]
      exact le_trans (foldl_min_le (min a x) ys) (min_le_right a x)
    · exact ih _ x h

theorem foldl_min_mem (a : ℚ) (l : List ℚ) : l.foldl min a = a ∨ l.foldl min a ∈ l := by
  induction l generalizing a with
  | nil => left; rfl
  | cons y ys ih =>
    rw [List.foldl_cons]
    rcases ih (min a y) with h | h
    · rcases min_choice a y with h1 | h1
      · left; rw [h, h1]
      · right; rw [h, h1]; exact List.mem_cons_self y ys
    · right; exact List.mem_cons_of_mem y h

theorem finalize_push_getLast (look : ℕ) (hlook : 1 ≤ look)
    (hist : List Candle) (cd : Candle) :
    (finalize_push look hist cd).getLast? = some cd := by
  unfold finalize_push
  by_cases h : look < (hist ++ [cd]).length
  · rw [if_pos h]
    have hle : (hist ++ [cd]).length - look ≤ hist.length := by
      simp only [List.length_append, List.length_cons, List.length_nil]
      omega
    rw [List.drop_append_of_le_length hle, List.getLast?_concat]
  · rw [if_neg h, List.getLast?_concat]

theorem tick_foldl_fields (cd : Candle) (ts : List (ℚ × ℚ × ℚ)) :
    ts.foldl (fun c t => tick c t.1 t.2.1) cd =
      ⟨cd.b, cd.o,
       (ts.map (·.1)).foldl max cd.h,
       (ts.map (·.1)).foldl min cd.l,
       (ts.map (·.1)).getLastD cd.c,
       cd.v + (ts.map (·.2.1)).sum⟩ := by
  induction ts generalizing cd with
  | nil =>
    simp only [List.foldl_nil, List.map_nil, List.getLastD_nil, List.sum_nil, add_zero]
  | cons t ts ih =>
    rw [List.foldl_cons, ih]
    simp only [tick, if_lt_eq_max, if_lt_eq_min, List.map_cons, List.foldl_cons,
      List.getLastD_cons, List.sum_cons]
    exact congrArg _ (by ring)

theorem feed_same_bucket (intv : ℤ) (look : ℕ) (hist : List Candle) (cd : Candle)
    (ts : List (ℚ × ℚ × ℚ)) (hb : ∀ t ∈ ts, bucket intv t.2.2 = cd.b) :
    feed ts ⟨intv, look, some cd, hist⟩ =
      ⟨intv, look, some (ts.foldl (fun c t => tick c t.1 t.2.1) cd), hist⟩ := by
  induction ts generalizing cd with
  | nil => rfl
  | cons t ts ih =>
    have hbt : bucket intv t.2.2 = cd.b := hb t (List.mem_cons_self _ _)
    have step : on_trade t.1 t.2.1 t.2.2 ⟨intv, look, some cd, hist⟩ =
        ⟨intv, look, some (tick cd t.1 t.2.1), hist⟩ := by
      simp [on_trade, hbt]
    have hb' : ∀ t' ∈ ts, bucket intv t'.2.2 = (tick cd t.1 t.2.1).b := by
      intro t' ht'
      exact hb t' (List.mem_cons_of_mem t ht')
    calc feed (t :: ts) ⟨intv, look, some cd, hist⟩
      = feed ts (on_trade t.1 t.2.1 t.2.2 ⟨intv, look, some cd, hist⟩) := rfl
    _ = feed ts ⟨intv, look, some (tick cd t.1 t.2.1), hist⟩ := by rw [step]
    _ = _ := by rw [ih _ hb']; simp [List.foldl_cons]

/-! ### Claim theorems -/

/-- Claim C1: for every instrument and every finite sequence of trades
whose timestamps all fall in one bucket, after feeding them in order to
`on_trade` and finalizing, the finalized candle has open equal to the
first trade's price, close equal to the last trade's price, high/low
equal to the maximum/minimum observed price, and volume equal to the
sum of trade sizes. -/
theorem candle_single_bucket (intv : ℤ) (look : ℕ) (hist0 : List Candle) (b : ℤ)
    (t0 : ℚ × ℚ × ℚ) (rest : List (ℚ × ℚ × ℚ)) (now : ℚ)
    (hlook : 1 ≤ look)
    (hb : ∀ t ∈ (t0 :: rest), bucket intv t.2.2 = b)
    (hnow : (intv : ℚ) ≤ now - (b : ℚ)) :
    ∃ cd : Candle,
      (flush_if_due now (feed (t0 :: rest) ⟨intv, look, none, hist0⟩)).hist.getLast? = some cd ∧
      (flush_if_due now (feed (t0 :: rest) ⟨intv, look, none, hist0⟩)).cur = none ∧
      cd.b = b ∧
      cd.o = t0.1 ∧
      cd.c = ((t0 :: rest).map (·.1)).getLastD 0 ∧
      cd.v = ((t0 :: rest).map (·.2.1)).sum ∧
      cd.h ∈ (t0 :: rest).map (·.1) ∧
      (∀ p ∈ (t0 :: rest).map (·.1), p ≤ cd.h) ∧
      cd.l ∈ (t0 :: rest).map (·.1) ∧
      (∀ p ∈ (t0 :: rest).map (·.1), cd.l ≤ p) := by
  have hb0 : bucket intv t0.2.2 = b := hb t0 (List.mem_cons_self _ _)
  have step0 : feed (t0 :: rest) ⟨intv, look, none, hist0⟩ =
      feed rest ⟨intv, look, some ⟨b, t0.1, t0.1, t0.1, t0.1, t0.2.1⟩, hist0⟩ := by
    show feed rest (on_trade t0.1 t0.2.1 t0.2.2 ⟨intv, look, none, hist0⟩) = _
    rw [show on_trade t0.1 t0.2.1 t0.2.2 ⟨intv, look, none, hist0⟩ =
      ⟨intv, look, some ⟨b, t0.1, t0.1, t0.1, t0.1, t0.2.1⟩, hist0⟩ by
      simp [on_trade, hb0]]
  have hbrest : ∀ t ∈ rest, bucket intv t.2.2 =
      (Candle.mk b t0.1 t0.1 t0.1 t0.1 t0.2.1).b := by
    intro t ht
    exact hb t (List.mem_cons_of_mem t0 ht)
  set cdF : Candle := rest.foldl (fun c t => tick c t.1 t.2.1)
    ⟨b, t0.1, t0.1, t0.1, t0.1, t0.2.1⟩ with hcdF
  have hfeed : feed (t0 :: rest) ⟨intv, look, none, hist0⟩ =
      ⟨intv, look, some cdF, hist0⟩ := by
    rw [step0, feed_same_bucket intv look hist0 _ rest hbrest]
  have hfields : cdF = ⟨b, t0.1,
      (rest.map (·.1)).foldl max t0.1,
      (rest.map (·.1)).foldl min t0.1,
      (rest.map (·.1)).getLastD t0.1,
      t0.2.1 + (rest.map (·.2.1)).sum⟩ := by
    rw [hcdF, tick_foldl_fields]
  have hflush : flush_if_due now (feed (t0 :: rest) ⟨intv, look, none, hist0⟩) =
      ⟨intv, look, none, finalize_push look hist0 cdF⟩ := by
    rw [hfeed]
    have hbF : cdF.b = b := by rw [hfields]
    simp only [flush_if_due, hbF]
    rw [if_pos hnow]
  refine ⟨cdF, ?_, ?_, ?_, ?_, ?_, ?_, ?_, ?_, ?_, ?_⟩
  · rw [hflush]
    exact finalize_push_getLast look hlook hist0 cdF
  · rw [hflush]
  · rw [hfields]
  · rw [hfields]
  · rw [hfields]
    simp only [List.map_cons, List.getLastD_cons]
  · rw [hfields]
    simp only [List.map_cons, List.sum_cons]
  · rw [hfields]
    simp only [List.map_cons]
    rcases foldl_max_mem t0.1 (rest.map (·.1)) with h | h
    · rw [h]; exact List.mem_cons_self _ _
    · exact List.mem_cons_of_mem _ h
  · rw [hfields]
    simp only [List.map_cons]
    intro p hp
    rcases List.mem_cons.mp hp with h | h
    · subst h; exact le_foldl_max _ _
    · exact mem_le_foldl_max _ _ p h
  · rw [hfields]
    simp only [List.map_cons]
    rcases foldl_min_mem t0.1 (rest.map (·.1)) with h | h
    · rw [h]; exact List.mem_cons_self _ _
    · exact List.mem_cons_of_mem _ h
  · rw [hfields]
    simp only [List.map_cons]
    intro p hp
    rcases List.mem_cons.mp hp with h | h
    · subst h; exact foldl_min_le _ _
    · exact foldl_min_le_mem _ _ p h

/-- Witness for C1: three trades inside the 60-second bucket starting
at 0 produce the candle open 10, high 12, low 10, close 11, volume 6. -/
theorem candle_single_bucket_witness :
    ∃ cd : Candle,
      (flush_if_due 60 (feed ((10, 2, 0) :: [(12, 1, 0), (11, 3, 0)])
        ⟨60, 120, none, []⟩)).hist.getLast? = some cd ∧
      (flush_if_due 60 (feed ((10, 2, 0) :: [(12, 1, 0), (11, 3, 0)])
        ⟨60, 120, none, []⟩)).cur = none ∧
      cd.b = 0 ∧
      cd.o = (10, 2, 0).1 ∧
      cd.c = (((10, 2, 0) :: [(12, 1, 0), (11, 3, 0)]).map (·.1)).getLastD 0 ∧
      cd.v = (((10, 2, 0) :: [(12, 1, 0), (11, 3, 0)]).map (·.2.1)).sum ∧
      cd.h ∈ ((10, 2, 0) :: [(12, 1, 0), (11, 3, 0)]).map (·.1) ∧
      (∀ p ∈ ((10, 2, 0) :: [(12, 1, 0), (11, 3, 0)]).map (·.1), p ≤ cd.h) ∧
      cd.l ∈ ((10, 2, 0) :: [(12, 1, 0), (11, 3, 0)]).map (·.1) ∧
      (∀ p ∈ ((10, 2, 0) :: [(12, 1, 0), (11, 3, 0)]).map (·.1), cd.l ≤ p) :=
  candle_single_bucket 60 120 [] 0 (10, 2, 0) [(12, 1, 0), (11, 3, 0)] 60
    (by norm_num)
    (by intro t ht; fin_cases ht <;> simp [bucket])
    (by norm_num)

/-- Claim C3 is violated by the code: a trade whose bucket is strictly
older than the in-progress candle's bucket is not a no-op.  Here the
in-progress candle sits in bucket 120 (interval 60) and a trade with
timestamp 0 (bucket 0) arrives: `on_trade` finalizes the in-progress
candle into the history and opens a new in-progress candle in the older
bucket 0, instead of dropping the trade. -/
theorem on_trade_older_bucket_not_noop :
    on_trade 2 1 0 ⟨60, 120, some ⟨120, 1, 1, 1, 1, 1⟩, []⟩ =
      ⟨60, 120, some ⟨0, 2, 2, 2, 2, 1⟩, [⟨120, 1, 1, 1, 1, 1⟩]⟩ ∧
    on_trade 2 1 0 ⟨60, 120, some ⟨120, 1, 1, 1, 1, 1⟩, []⟩ ≠
      ⟨60, 120, some ⟨120, 1, 1, 1, 1, 1⟩, []⟩ := by
  have hb : bucket 60 0 = 0 := by simp [bucket]
  have heq : on_trade 2 1 0 ⟨60, 120, some ⟨120, 1, 1, 1, 1, 1⟩, []⟩ =
      ⟨60, 120, some ⟨0, 2, 2, 2, 2, 1⟩, [⟨120, 1, 1, 1, 1, 1⟩]⟩ := by
    simp [on_trade, hb, finalize_push]
  refine ⟨heq, ?_⟩
  rw [heq]
  simp

/-- Claim C4 (amended): `is_duplicate` returns true and leaves the
state unchanged when `now - last < cooldown` (with a never-alerted pair
reading `last = 0`, the dictionary default); otherwise it records `now`
and returns false.  The first call for a never-alerted pair returns
false provided `cooldown ≤ now`, and the cooldown-60 sequence at
T, T+30, T+61 returns false, true, false provided `60 ≤ T`. -/
theorem is_duplicate_spec (pair : String) (minSec now : ℚ)
    (st : String → Option ℚ) :
    (now - (st pair).getD 0 < minSec →
      is_duplicate pair minSec now st = (true, st)) ∧
    (minSec ≤ now - (st pair).getD 0 →
      is_duplicate pair minSec now st =
        (false, fun p => if p = pair then some now else st p)) ∧
    (st pair = none → minSec ≤ now →
      (is_duplicate pair minSec now st).1 = false) ∧
    (st pair = none → 60 ≤ now →
      (is_duplicate pair 60 now st).1 = false ∧
      (is_duplicate pair 60 (now + 30) (is_duplicate pair 60 now st).2).1 = true ∧
      (is_duplicate pair 60 (now + 61)
        (is_duplicate pair 60 (now + 30)
          (is_duplicate pair 60 now st).2).2).1 = false) := by
  refine ⟨?_, ?_, ?_, ?_⟩
  · intro h
    simp only [is_duplicate, if_pos h]
  · intro h
    simp only [is_duplicate, if_neg (not_lt.mpr h)]
  · intro hn h
    have h' : ¬ (now - (st pair).getD 0 < minSec) := by
      rw [hn]
      simpa using not_lt.mpr h
    simp only [is_duplicate, if_neg h']
  · intro hn hT
    have e1 : is_duplicate pair 60 now st =
        (false, fun p => if p = pair then some now else st p) := by
      have h' : ¬ (now - (st pair).getD 0 < 60) := by
        rw [hn]
        simpa using not_lt.mpr hT
      simp only [is_duplicate, if_neg h']
    set st1 : String → Option ℚ := fun p => if p = pair then some now else st p
      with hst1
    have hst1p : st1 pair = some now := by rw [hst1]; simp
    have e2 : is_duplicate pair 60 (now + 30) st1 = (true, st1) := by
      have h' : (now + 30) - (st1 pair).getD 0 < 60 := by
        rw [hst1p]
        simp only [Option.getD_some]
        linarith
      simp only [is_duplicate, if_pos h']
    have e3 : (is_duplicate pair 60 (now + 61) st1).1 = false := by
      have h' : ¬ ((now + 61) - (st1 pair).getD 0 < 60) := by
        rw [hst1p]
        simp only [Option.getD_some]
        push_neg
        linarith
      simp only [is_duplicate, if_neg h']
    refine ⟨by rw [e1], by rw [e1, e2], ?_⟩
    rw [e1]
    show (is_duplicate pair 60 (now + 61)
      (is_duplicate pair 60 (now + 30) st1).2).1 = false
    rw [e2]
    exact e3

/-- Witness for C4 at T = 100: false, true, false. -/
theorem is_duplicate_spec_witness :
    (is_duplicate "BTC-USD" 60 100 (fun _ => none)).1 = false ∧
    (is_duplicate "BTC-USD" 60 (100 + 30)
      (is_duplicate "BTC-USD" 60 100 (fun _ => none)).2).1 = true ∧
    (is_duplicate "BTC-USD" 60 (100 + 61)
      (is_duplicate "BTC-USD" 60 (100 + 30)
        (is_duplicate "BTC-USD" 60 100 (fun _ => none)).2).2).1 = false :=
  (is_duplicate_spec "BTC-USD" 60 100 (fun _ => none)).2.2.2 rfl (by norm_num)

/-- Claim C4's clause "the first call for a pair that has never alerted
returns false" is false as a universal statement: with the dictionary
default 0.0 for a never-alerted pair, a call at now = 30 with cooldown
60 already reads `30 - 0 < 60` and returns true. -/
theorem is_duplicate_first_call_cex :
    (is_duplicate "BTC-USD" 60 30 (fun _ => none)).1 = true := by
  have h : (30 : ℚ) - (((fun _ => none : String → Option ℚ) "BTC-USD").getD 0) < 60 := by
    norm_num
  simp only [is_duplicate, if_pos h]

/-- Claim C10: loading the tracked-pair list is total and never yields
an empty universe; a missing file, a file of only malformed lines, or a
file with no usable symbol entries all yield the default list. -/
theorem load_pairs_spec :
    (∀ file, load_pairs file ≠ []) ∧
    load_pairs none = ["BTC-USD", "ETH-USD"] ∧
    (∀ lines, (∀ l ∈ lines, l = ULine.bad) →
      load_pairs (some lines) = ["BTC-USD", "ETH-USD"]) ∧
    (∀ lines, (∀ l ∈ lines, pidOf l = none) →
      load_pairs (some lines) = ["BTC-USD", "ETH-USD"]) := by
  have hnone : ∀ lines : List ULine, (∀ l ∈ lines, pidOf l = none) →
      load_pairs (some lines) = ["BTC-USD", "ETH-USD"] := by
    intro lines h
    have he : lines.filterMap pidOf = [] := List.filterMap_eq_nil_iff.mpr h
    simp [load_pairs, he]
  refine ⟨?_, rfl, ?_, hnone⟩
  · intro file
    match file with
    | none => simp [load_pairs]
    | some lines =>
      simp only [load_pairs]
      by_cases h : lines.filterMap pidOf = []
      · rw [if_pos h]
        simp
      · rw [if_neg h]
        exact h
  · intro lines h
    apply hnone
    intro l hl
    rw [h l hl]
    rfl

/-- Witness for C10: a malformed line plus a line whose pair field is
the falsy empty string yield the default universe. -/
theorem load_pairs_spec_witness :
    load_pairs (some [ULine.bad, ULine.row (some "") none]) =
      ["BTC-USD", "ETH-USD"] :=
  load_pairs_spec.2.2.2 [ULine.bad, ULine.row (some "") none]
    (by intro l hl; fin_cases hl <;> rfl)

/-- Claim C7 is false on the code: here "BTC-USD" is in both the old
and the new universe, holds one finalized candle before the universe
change, and has empty history afterwards — the transition rebuilds the
whole aggregator instead of retaining the series of symbols present in
both universes. -/
theorem universe_step_retained_symbol_loses_hist :
    "BTC-USD" ∈ (ScanState.mk ["BTC-USD"]
      (fun p => if p = "BTC-USD" then [⟨0, 1, 1, 1, 1, 1⟩] else [])).pairs ∧
    "BTC-USD" ∈ ["BTC-USD", "ETH-USD"] ∧
    (ScanState.mk ["BTC-USD"]
      (fun p => if p = "BTC-USD" then [⟨0, 1, 1, 1, 1, 1⟩] else [])).hist
        "BTC-USD" = [⟨0, 1, 1, 1, 1, 1⟩] ∧
    (universe_step (ScanState.mk ["BTC-USD"]
        (fun p => if p = "BTC-USD" then [⟨0, 1, 1, 1, 1, 1⟩] else []))
      ["BTC-USD", "ETH-USD"] false 0 120 (fun _ => [])).hist "BTC-USD" = [] := by
  have hs : sameSet ["BTC-USD", "ETH-USD"] ["BTC-USD"] = false := by decide
  refine ⟨by simp, by simp, by simp, ?_⟩
  simp [universe_step, hs]

/-- Claim C7 amended: on a set-level universe change the transition
replaces the pair list and rebuilds every per-instrument series from
scratch: the new histories do not depend on any old history, every
history is empty when backfill is off, and is exactly the REST seeding
of a fresh aggregator when backfill is on with a positive bar count. -/
theorem universe_step_spec (st : ScanState) (newPairs : List String)
    (backfillEnabled : Bool) (bars look : ℕ) (rest : String → List RestRow)
    (h : sameSet newPairs st.pairs = false) :
    (universe_step st newPairs backfillEnabled bars look rest).pairs = newPairs ∧
    (∀ hist' : String → List Candle,
      (universe_step ⟨st.pairs, hist'⟩ newPairs backfillEnabled bars look rest).hist =
      (universe_step st newPairs backfillEnabled bars look rest).hist) ∧
    (backfillEnabled = false →
      ∀ pid, (universe_step st newPairs backfillEnabled bars look rest).hist pid = []) ∧
    (backfillEnabled = true → 0 < bars →
      (universe_step st newPairs backfillEnabled bars look rest).hist =
        seed_from_rest newPairs bars look rest (fun _ => [])) := by
  refine ⟨?_, ?_, ?_, ?_⟩
  · simp [universe_step, h]
  · intro hist'
    simp [universe_step, h]
  · intro hb pid
    simp [universe_step, h, hb]
  · intro hb hbars
    simp [universe_step, h, hb, hbars]

/-- Witness for C7: shrinking the universe from BTC to ETH with
backfill disabled leaves ETH (and every other symbol) with empty
history. -/
theorem universe_step_spec_witness :
    (universe_step (ScanState.mk ["BTC-USD"] (fun _ => []))
      ["ETH-USD"] false 0 120 (fun _ => [])).hist "ETH-USD" = [] :=
  (universe_step_spec (ScanState.mk ["BTC-USD"] (fun _ => []))
    ["ETH-USD"] false 0 120 (fun _ => []) (by decide)).2.2.1 rfl "ETH-USD"

theorem maxList_spec (l : List ℚ) (hl : l ≠ []) :
    maxList l ∈ l ∧ ∀ y ∈ l, y ≤ maxList l := by
  cases l with
  | nil => exact absurd rfl hl
  | cons x xs =>
    constructor
    · show xs.foldl max x ∈ x :: xs
      rcases foldl_max_mem x xs with h | h
      · rw [h]
        exact List.mem_cons_self _ _
      · exact List.mem_cons_of_mem _ h
    · intro y hy
      rcases List.mem_cons.mp hy with h | h
      · subst h
        exact le_foldl_max _ _
      · exact mem_le_foldl_max _ _ _ h

/-- Claim C2 (amended): short windows give no-hit with empty info; on a
window of length at least 3 the reported metrics are exactly lastClose,
maxHigh (the maximum high over all but the last candle), pctOver
(lastClose/maxHigh - 1 when maxHigh > 0, else 0), volRatio
(lastVolume/prevAvgVol when prevAvgVol > 0, else 0, with prevAvgVol the
mean volume over all but the last candle) and usdPerMinute =
lastVolume*lastClose, and the window hits iff
lastClose > maxHigh*(1 + threshold), volRatio ≥ spikeRatio and
usdPerMinute ≥ floor — a first conjunct equivalent to the claim's
pctOver > threshold whenever maxHigh > 0. -/
theorem is_breakout_window_spec (cset : List Candle) (thr req fl : ℚ) :
    (cset.length < 3 → is_breakout_window cset thr req fl = (false, none)) ∧
    (3 ≤ cset.length →
      is_breakout_window cset thr req fl =
        (decide (bkMaxHigh cset * (1 + thr) < bkLastClose cset) &&
          decide (req ≤ bkVolRatio cset) && decide (fl ≤ bkUsd cset),
         some ⟨bkLastClose cset, bkMaxHigh cset, bkPctOver cset,
           bkVolRatio cset, bkUsd cset⟩) ∧
      bkMaxHigh cset ∈ (cset.map (·.h)).dropLast ∧
      (∀ x ∈ (cset.map (·.h)).dropLast, x ≤ bkMaxHigh cset) ∧
      bkPrevAvgVol cset =
        ((cset.map (·.v)).dropLast).sum /
          (((cset.map (·.v)).dropLast).length : ℚ) ∧
      (0 < bkMaxHigh cset →
        ((is_breakout_window cset thr req fl).1 = true ↔
          (thr < bkPctOver cset ∧ req ≤ bkVolRatio cset ∧ fl ≤ bkUsd cset)))) := by
  constructor
  · intro h
    simp only [is_breakout_window, if_pos h]
  · intro h3
    have hnot : ¬ (cset.length < 3) := not_lt.mpr h3
    have heq : is_breakout_window cset thr req fl =
        (decide (bkMaxHigh cset * (1 + thr) < bkLastClose cset) &&
          decide (req ≤ bkVolRatio cset) && decide (fl ≤ bkUsd cset),
         some ⟨bkLastClose cset, bkMaxHigh cset, bkPctOver cset,
           bkVolRatio cset, bkUsd cset⟩) := by
      simp only [is_breakout_window, if_neg hnot]
    have hlen : ((cset.map (·.h)).dropLast).length = cset.length - 1 := by
      rw [List.length_dropLast, List.length_map]
    have hne : (cset.map (·.h)).dropLast ≠ [] := by
      intro hnil
      rw [hnil] at hlen
      simp only [List.length_nil] at hlen
      omega
    have hmax := maxList_spec ((cset.map (·.h)).dropLast) hne
    refine ⟨heq, hmax.1, hmax.2, ?_, ?_⟩
    · have hlv : ((cset.map (·.v)).dropLast).length = cset.length - 1 := by
        rw [List.length_dropLast, List.length_map]
      have hge : 1 ≤ ((cset.map (·.v)).dropLast).length := by omega
      rw [bkPrevAvgVol]
      rw [max_eq_left hge]
    · intro hm
      rw [heq]
      simp only [Bool.and_eq_true, decide_eq_true_eq, and_assoc]
      have hiff : (bkMaxHigh cset * (1 + thr) < bkLastClose cset) ↔
          (thr < bkPctOver cset) := by
        rw [bkPctOver, if_pos hm, lt_sub_iff_add_lt, lt_div_iff₀ hm]
        have hE : (thr + 1) * bkMaxHigh cset = bkMaxHigh cset * (1 + thr) := by
          ring
        rw [hE]
      rw [hiff]

/-- Witness for C2: the empty window is a no-hit, and on a concrete
window of length 3 the reported prevAvgVol is the mean volume of the
first two candles. -/
theorem is_breakout_window_spec_witness :
    is_breakout_window [] (1 / 100) (13 / 10) 10 = (false, none) ∧
    bkPrevAvgVol [⟨0, 1, 2, 1, 2, 1⟩, ⟨60, 1, 2, 1, 2, 1⟩, ⟨120, 3, 3, 3, 3, 5⟩] =
      (([(⟨0, 1, 2, 1, 2, 1⟩ : Candle), ⟨60, 1, 2, 1, 2, 1⟩,
          ⟨120, 3, 3, 3, 3, 5⟩].map (·.v)).dropLast).sum /
        ((([(⟨0, 1, 2, 1, 2, 1⟩ : Candle), ⟨60, 1, 2, 1, 2, 1⟩,
          ⟨120, 3, 3, 3, 3, 5⟩].map (·.v)).dropLast).length : ℚ) :=
  ⟨(is_breakout_window_spec [] (1 / 100) (13 / 10) 10).1 (by norm_num),
   ((is_breakout_window_spec [⟨0, 1, 2, 1, 2, 1⟩, ⟨60, 1, 2, 1, 2, 1⟩,
      ⟨120, 3, 3, 3, 3, 5⟩] (1 / 100) (13 / 10) 10).2 (by norm_num)).2.2.2.1⟩

/-- Claim C2 as stated is false at a window whose prior maximum high is
zero: the code hits (the first conjunct compares
`last_close > max_high*(1+threshold)`, here `5 > 0`), while the claim's
`pctOver > threshold` reads `0 > 1/100` and predicts no-hit.  A second
window with negative volumes shows the reported volRatio is 0 rather
than the claim's `lastVolume/prevAvgVol` whenever prevAvgVol is
negative rather than zero. -/
theorem is_breakout_window_cex :
    is_breakout_window [⟨0, 0, 0, 0, 0, 1⟩, ⟨60, 0, 0, 0, 0, 1⟩,
        ⟨120, 5, 5, 5, 5, 3⟩] (1 / 100) (13 / 10) 10 =
      (true, some ⟨5, 0, 0, 3, 15⟩) ∧
    ¬ ((1 : ℚ) / 100 < 0) ∧
    bkVolRatio [⟨0, 0, 1, 0, 1, -2⟩, ⟨60, 0, 1, 0, 1, -2⟩,
        ⟨120, 5, 5, 5, 5, 3⟩] = 0 ∧
    bkLastVol [⟨0, 0, 1, 0, 1, -2⟩, ⟨60, 0, 1, 0, 1, -2⟩,
        ⟨120, 5, 5, 5, 5, 3⟩] /
      bkPrevAvgVol [⟨0, 0, 1, 0, 1, -2⟩, ⟨60, 0, 1, 0, 1, -2⟩,
        ⟨120, 5, 5, 5, 5, 3⟩] = -(3 / 2) := by
  have h1 : bkMaxHigh [(⟨0, 0, 0, 0, 0, 1⟩ : Candle), ⟨60, 0, 0, 0, 0, 1⟩,
      ⟨120, 5, 5, 5, 5, 3⟩] = 0 := by
    simp [bkMaxHigh, maxList, List.dropLast]
  have h2 : bkLastClose [(⟨0, 0, 0, 0, 0, 1⟩ : Candle), ⟨60, 0, 0, 0, 0, 1⟩,
      ⟨120, 5, 5, 5, 5, 3⟩] = 5 := by
    simp [bkLastClose, List.getLastD]
  have h3 : bkPrevAvgVol [(⟨0, 0, 0, 0, 0, 1⟩ : Candle), ⟨60, 0, 0, 0, 0, 1⟩,
      ⟨120, 5, 5, 5, 5, 3⟩] = 1 := by
    simp [bkPrevAvgVol, List.dropLast]
  have h4 : bkLastVol [(⟨0, 0, 0, 0, 0, 1⟩ : Candle), ⟨60, 0, 0, 0, 0, 1⟩,
      ⟨120, 5, 5, 5, 5, 3⟩] = 3 := by
    simp [bkLastVol, List.getLastD]
  have h5 : bkPrevAvgVol [(⟨0, 0, 1, 0, 1, -2⟩ : Candle), ⟨60, 0, 1, 0, 1, -2⟩,
      ⟨120, 5, 5, 5, 5, 3⟩] = -2 := by
    simp [bkPrevAvgVol, List.dropLast]
  have h6 : bkLastVol [(⟨0, 0, 1, 0, 1, -2⟩ : Candle), ⟨60, 0, 1, 0, 1, -2⟩,
      ⟨120, 5, 5, 5, 5, 3⟩] = 3 := by
    simp [bkLastVol, List.getLastD]
  have hvr : bkVolRatio [(⟨0, 0, 0, 0, 0, 1⟩ : Candle), ⟨60, 0, 0, 0, 0, 1⟩,
      ⟨120, 5, 5, 5, 5, 3⟩] = 3 := by
    rw [bkVolRatio, h3, h4, if_pos (show (0 : ℚ) < 1 by norm_num)]
    norm_num
  have husd : bkUsd [(⟨0, 0, 0, 0, 0, 1⟩ : Candle), ⟨60, 0, 0, 0, 0, 1⟩,
      ⟨120, 5, 5, 5, 5, 3⟩] = 15 := by
    rw [bkUsd, h2, h4]
    norm_num
  have hpo : bkPctOver [(⟨0, 0, 0, 0, 0, 1⟩ : Candle), ⟨60, 0, 0, 0, 0, 1⟩,
      ⟨120, 5, 5, 5, 5, 3⟩] = 0 := by
    rw [bkPctOver, h1]
    simp
  have hn : ¬ (([(⟨0, 0, 0, 0, 0, 1⟩ : Candle), ⟨60, 0, 0, 0, 0, 1⟩,
      ⟨120, 5, 5, 5, 5, 3⟩]).length < 3) := by
    simp
  refine ⟨?_, by norm_num, ?_, ?_⟩
  · simp only [is_breakout_window, if_neg hn, Prod.mk.injEq, Option.some.injEq]
    constructor
    · rw [h1, h2, hvr, husd]
      norm_num
    · rw [BreakoutInfo.mk.injEq]
      exact ⟨h2, h1, hpo, hvr, husd⟩
  · rw [bkVolRatio, h5, if_neg (show ¬ (0 : ℚ) < -2 by norm_num)]
  · rw [h5, h6]
    norm_num

theorem lastSlice_length (n : ℕ) (l : List α) (h : n ≤ l.length) (hn : n ≠ 0) :
    (lastSlice n l).length = n := by
  rw [lastSlice, if_neg hn, List.length_drop]
  omega

/-- Claim C5 (amended): for a lookback of at least 2 and a series long
enough to enable the filter, the average USD volume compared against
the floor equals the mean of volume*close over the most recent
`lookback` candles excluding the current (latest) one, and
`apply_filters` reports exactly this average in its details. -/
theorem vpm_avg_spec (look : ℕ) (cs : List Candle)
    (h2 : 2 ≤ look) (hlen : look ≤ cs.length) :
    vpm_avg look cs = spec_vpm_avg look cs ∧
    (∀ cfg : FilterCfg, cfg.filtersEnable = true → cfg.vpmEnable = true →
      cfg.vpmLook = look →
      ∀ b d, apply_filters cfg cs = .ok (b, d) →
        d.vpm_avg_usd = some (vpm_avg look cs)) := by
  have hn0 : look ≠ 0 := by omega
  have hL : (lastSlice look cs).length = look := lastSlice_length look cs hlen hn0
  have hUv : ((lastSlice look cs).map usdOf).length = look := by
    rw [List.length_map, hL]
  constructor
  · have h1lt : 1 < ((lastSlice look cs).map usdOf).length := by omega
    simp only [vpm_avg, spec_vpm_avg, if_pos h1lt]
    rw [List.length_dropLast, hUv, List.length_dropLast, hL,
      max_eq_left (by omega : 1 ≤ look - 1)]
    rw [← List.map_dropLast]
  · intro cfg hFE hVE hLK b d hok
    have hcond : cfg.vpmEnable = true ∧ max cfg.vpmLook 2 ≤ cs.length := by
      refine ⟨hVE, ?_⟩
      rw [hLK, max_eq_left h2]
      exact hlen
    rw [apply_filters, if_neg (by simp [hFE])] at hok
    cases hr : (if cfg.rsiEnable = true then
        compute_rsi (List.map (fun x => x.c) cs) cfg.rsiPeriod
      else Except.ok none) with
    | error e =>
      rw [hr] at hok
      exact Except.noConfusion hok
    | ok v =>
      rw [hr] at hok
      dsimp only at hok
      cases hm : (if cfg.macdEnable = true then
          compute_macd (List.map (fun x => x.c) cs)
            cfg.macdFast cfg.macdSlow cfg.macdSig
        else Except.ok none) with
      | error e =>
        rw [hm] at hok
        exact Except.noConfusion hok
      | ok mv =>
        rw [hm] at hok
        dsimp only at hok
        simp only [Except.ok.injEq, Prod.mk.injEq] at hok
        rw [← hok.2]
        show (vpmPartOf cfg cs).2 = some (vpm_avg look cs)
        rw [vpmPartOf, if_pos hcond, hLK]

/-- Witness for C5 at lookback 2 over a two-candle series. -/
theorem vpm_avg_spec_witness :
    vpm_avg 2 [⟨0, 1, 1, 1, 2, 2⟩, ⟨60, 1, 1, 1, 10, 10⟩] =
      spec_vpm_avg 2 [⟨0, 1, 1, 1, 2, 2⟩, ⟨60, 1, 1, 1, 10, 10⟩] :=
  (vpm_avg_spec 2 [⟨0, 1, 1, 1, 2, 2⟩, ⟨60, 1, 1, 1, 10, 10⟩]
    (by norm_num) (by simp)).1

/-- Claim C5 as stated is false at lookback 1: the code then averages
the single slice element, which is the current (latest) candle itself
(usd 10*10 = 100), not the mean excluding it (the only earlier candle
has usd 2*2 = 4, and the claim's excluded-mean over the most recent 1
candle is empty, rendered 0). -/
theorem vpm_avg_lookback_one_cex :
    vpm_avg 1 [⟨0, 1, 1, 1, 2, 2⟩, ⟨60, 1, 1, 1, 10, 10⟩] = 100 ∧
    usdOf (⟨60, 1, 1, 1, 10, 10⟩ : Candle) = 100 ∧
    spec_vpm_avg 1 [⟨0, 1, 1, 1, 2, 2⟩, ⟨60, 1, 1, 1, 10, 10⟩] = 0 ∧
    vpm_avg 1 [⟨0, 1, 1, 1, 2, 2⟩, ⟨60, 1, 1, 1, 10, 10⟩] ≠
      spec_vpm_avg 1 [⟨0, 1, 1, 1, 2, 2⟩, ⟨60, 1, 1, 1, 10, 10⟩] := by
  have hv : vpm_avg 1 [(⟨0, 1, 1, 1, 2, 2⟩ : Candle), ⟨60, 1, 1, 1, 10, 10⟩] = 100 := by
    norm_num [vpm_avg, lastSlice, usdOf]
  have hs : spec_vpm_avg 1 [(⟨0, 1, 1, 1, 2, 2⟩ : Candle), ⟨60, 1, 1, 1, 10, 10⟩] = 0 := by
    norm_num [spec_vpm_avg, lastSlice]
  refine ⟨hv, by norm_num [usdOf], hs, ?_⟩
  rw [hv, hs]
  norm_num

theorem chain_lt_zip_pos (closes : List ℚ) (hc : List.Chain' (· < ·) closes) :
    ∀ d ∈ List.zipWith (· - ·) closes.tail closes, 0 < d := by
  induction closes with
  | nil => simp
  | cons a l ih =>
    cases l with
    | nil => simp
    | cons b l2 =>
      intro d hd
      simp only [List.tail_cons, List.zipWith_cons_cons] at hd
      rcases List.mem_cons.mp hd with h | h
      · subst h
        have hab := (List.chain'_cons.mp hc).1
        linarith
      · exact ih (List.chain'_cons.mp hc).2 d (by simpa using h)

theorem wilderSmooth_zero (period : ℕ) (l : List ℚ) (hl : ∀ x ∈ l, x = 0) :
    wilderSmooth period 0 l = 0 := by
  induction l with
  | nil => rfl
  | cons x xs ih =>
    rw [wilderSmooth, List.foldl_cons]
    have hx : x = 0 := hl x (List.mem_cons_self _ _)
    have hstep : wilderStep period 0 x = 0 := by
      rw [wilderStep, hx]
      simp
    rw [hstep]
    exact ih (fun y hy => hl y (List.mem_cons_of_mem _ hy))

/-- Claim C6 (amended, for period ≥ 1): `compute_rsi` returns none when
fewer than period+1 closes are available; otherwise it returns the
value obtained by seeding the average gain/loss over the first `period`
deltas and applying Wilder's recursive smoothing to the remaining ones,
mapping a zero average loss to exactly 100; in particular every
strictly increasing series of length greater than `period` yields
exactly 100. -/
theorem compute_rsi_spec (closes : List ℚ) (period : ℕ) (hp : 1 ≤ period) :
    (closes.length < period + 1 → compute_rsi closes period = .ok none) ∧
    (period + 1 ≤ closes.length →
      compute_rsi closes period =
        (if wilderSmooth period
            ((((List.zipWith (· - ·) closes.tail closes).map
                (fun d => if d < 0 then -d else 0)).take period).sum / (period : ℚ))
            (((List.zipWith (· - ·) closes.tail closes).map
                (fun d => if d < 0 then -d else 0)).drop period) = 0
         then Except.ok (some 100)
         else Except.ok (some (100 - 100 / (1 +
            wilderSmooth period
              ((((List.zipWith (· - ·) closes.tail closes).map
                  (fun d => if 0 < d then d else 0)).take period).sum / (period : ℚ))
              (((List.zipWith (· - ·) closes.tail closes).map
                  (fun d => if 0 < d then d else 0)).drop period) /
            wilderSmooth period
              ((((List.zipWith (· - ·) closes.tail closes).map
                  (fun d => if d < 0 then -d else 0)).take period).sum / (period : ℚ))
              (((List.zipWith (· - ·) closes.tail closes).map
                  (fun d => if d < 0 then -d else 0)).drop period)))))) ∧
    (List.Chain' (· < ·) closes → period < closes.length →
      compute_rsi closes period = .ok (some 100)) := by
  have hnz : period ≠ 0 := by omega
  refine ⟨?_, ?_, ?_⟩
  · intro h
    simp only [compute_rsi, if_pos h]
  · intro h
    simp only [compute_rsi, if_neg (not_lt.mpr h), if_neg hnz]
  · intro hc hlen
    have hns : ¬ (closes.length < period + 1) := by omega
    have hall : ∀ x ∈ (List.zipWith (· - ·) closes.tail closes).map
        (fun d => if d < 0 then -d else 0), x = 0 := by
      intro x hx
      rcases List.mem_map.mp hx with ⟨d, hd, rfl⟩
      have hdpos := chain_lt_zip_pos closes hc d hd
      rw [if_neg (by linarith)]
    have hsum : (((List.zipWith (· - ·) closes.tail closes).map
        (fun d => if d < 0 then -d else 0)).take period).sum = 0 :=
      List.sum_eq_zero (fun x hx => hall x (List.take_subset _ _ hx))
    have hzero : wilderSmooth period
        ((((List.zipWith (· - ·) closes.tail closes).map
            (fun d => if d < 0 then -d else 0)).take period).sum / (period : ℚ))
        (((List.zipWith (· - ·) closes.tail closes).map
            (fun d => if d < 0 then -d else 0)).drop period) = 0 := by
      rw [hsum, zero_div]
      exact wilderSmooth_zero period _
        (fun x hx => hall x (List.drop_subset _ _ hx))
    simp only [compute_rsi, if_neg hns, if_neg hnz, hzero, if_pos rfl]
    simp

/-- Witness for C6: the strictly increasing series 1,2,3 with period 2
yields exactly 100. -/
theorem compute_rsi_spec_witness :
    compute_rsi [(1 : ℚ), 2, 3] 2 = .ok (some 100) :=
  (compute_rsi_spec [(1 : ℚ), 2, 3] 2 (by norm_num)).2.2
    (by simp [List.chain'_cons]; norm_num) (by norm_num)

/-- Claim C6 as stated is false at period 0: for the (vacuously
strictly increasing) one-element series the length guard passes and
`sum(gains[:period]) / period` raises ZeroDivisionError (`.error` in
the embedding) instead of returning 100.0 "without dividing by
zero". -/
theorem compute_rsi_period_zero_cex :
    compute_rsi [(5 : ℚ)] 0 = .error () ∧
    compute_rsi [(5 : ℚ)] 0 ≠ .ok (some 100) ∧
    List.Chain' (· < ·) [(5 : ℚ)] ∧ 0 < ([(5 : ℚ)]).length := by
  refine ⟨rfl, ?_, by simp, by simp⟩
  intro h
  rw [show compute_rsi [(5 : ℚ)] 0 = .error () from rfl] at h
  exact Except.noConfusion h

theorem exists_ok_of_ite (c : Prop) [Decidable c] (a b : Option ℚ) :
    ∃ v, (if c then (Except.ok a : Except Unit (Option ℚ))
      else Except.ok b) = .ok v := by
  by_cases h : c
  · exact ⟨a, by rw [if_pos h]⟩
  · exact ⟨b, by rw [if_neg h]⟩

theorem compute_rsi_isOk (closes : List ℚ) (period : ℕ) (hp : 1 ≤ period) :
    ∃ v, compute_rsi closes period = .ok v := by
  rw [compute_rsi]
  by_cases h : closes.length < period + 1
  · exact ⟨none, by rw [if_pos h]⟩
  · rw [if_neg h, if_neg (by omega : ¬ period = 0)]
    dsimp only
    exact exists_ok_of_ite _ _ _

theorem emaAux_length (k prev : ℚ) (l : List ℚ) :
    (emaAux k prev l).length = l.length := by
  induction l generalizing prev with
  | nil => rfl
  | cons x xs ih => simp [emaAux, ih]

theorem ema_ok_of_ne_nil (vals : List ℚ) (period : ℕ) (h : vals ≠ []) :
    ∃ l, ema vals period = .ok l ∧ l.length = vals.length := by
  match vals with
  | v :: vs =>
    exact ⟨v :: emaAux (2 / ((period : ℚ) + 1)) v vs, rfl, by simp [emaAux_length]⟩

theorem getLast_exists_of_ne_nil (l : List ℚ) (h : l ≠ []) :
    ∃ m, l.getLast? = some m := by
  cases hq : l.getLast? with
  | none => exact absurd (List.getLast?_eq_none_iff.mp hq) h
  | some m => exact ⟨m, rfl⟩

theorem compute_macd_isOk (closes : List ℚ) (fast slow sig : ℕ)
    (hss : 1 ≤ slow + sig) :
    ∃ v, compute_macd closes fast slow sig = .ok v := by
  rw [compute_macd]
  by_cases hlen : closes.length < slow + sig
  · exact ⟨none, by rw [if_pos hlen]⟩
  · rw [if_neg hlen]
    have hclen : 1 ≤ closes.length := by omega
    have hne : closes ≠ [] := by
      intro h
      rw [h] at hclen
      simp at hclen
    obtain ⟨eF, hF, hFl⟩ := ema_ok_of_ne_nil closes fast hne
    obtain ⟨eS, hS, hSl⟩ := ema_ok_of_ne_nil closes slow hne
    rw [hF, hS]
    have hslice : (lastSlice eS.length eF).length = eS.length :=
      lastSlice_length eS.length eF (by rw [hFl, hSl]) (by rw [hSl]; omega)
    have hmlLen : (List.zipWith (· - ·) (lastSlice eS.length eF) eS).length =
        closes.length := by
      rw [List.length_zipWith, hslice, hSl]
      omega
    have hmne : List.zipWith (· - ·) (lastSlice eS.length eF) eS ≠ [] := by
      intro hnil
      rw [hnil] at hmlLen
      simp at hmlLen
      omega
    obtain ⟨sigL, hSig, hSigLen⟩ :=
      ema_ok_of_ne_nil (List.zipWith (· - ·) (lastSlice eS.length eF) eS) sig hmne
    dsimp only
    rw [hSig]
    have hsne : sigL ≠ [] := by
      intro hnil
      rw [hnil] at hSigLen
      rw [hmlLen] at hSigLen
      simp at hSigLen
      omega
    obtain ⟨m, hm⟩ :=
      getLast_exists_of_ne_nil (List.zipWith (· - ·) (lastSlice eS.length eF) eS) hmne
    obtain ⟨s, hs⟩ := getLast_exists_of_ne_nil sigL hsne
    dsimp only
    rw [hm, hs]
    exact ⟨some ⟨m, s, m - s⟩, rfl⟩

/-- Claim C8 (amended): with filtering globally disabled
`apply_filters` passes with empty details; with it enabled, under
configurations that do not trip the degenerate divisions (RSI period at
least 1 when RSI is enabled, MACD slow+signal at least 1 when MACD is
enabled) the call returns without error a verdict combining three
per-filter booleans: each boolean defaults to pass when its filter is
disabled or its value cannot be computed from the available history,
and the combination is a conjunction for filter logic "ALL" and a
disjunction for "ANY". -/
theorem apply_filters_spec (cfg : FilterCfg) (candles : List Candle)
    (hrsi : cfg.rsiEnable = true → 1 ≤ cfg.rsiPeriod)
    (hmacd : cfg.macdEnable = true → 1 ≤ cfg.macdSlow + cfg.macdSig) :
    ∃ ok det, apply_filters cfg candles = .ok (ok, det) ∧
      (cfg.filtersEnable = false → ok = true ∧ det = ⟨none, none, none⟩) ∧
      (cfg.filtersEnable = true →
        ∃ passRsi passVpm passMacd : Bool,
          (cfg.rsiEnable = false → passRsi = true) ∧
          (compute_rsi (candles.map (·.c)) cfg.rsiPeriod = .ok none →
            passRsi = true) ∧
          ((cfg.vpmEnable = true → candles.length < max cfg.vpmLook 2) →
            passVpm = true) ∧
          (cfg.macdEnable = false → passMacd = true) ∧
          (compute_macd (candles.map (·.c)) cfg.macdFast cfg.macdSlow cfg.macdSig
              = .ok none → passMacd = true) ∧
          (cfg.filterLogic = "ALL" → ok = (passRsi && passVpm && passMacd)) ∧
          (cfg.filterLogic = "ANY" → ok = (passRsi || passVpm || passMacd))) := by
  by_cases hFE : cfg.filtersEnable = false
  · refine ⟨true, ⟨none, none, none⟩, ?_, fun _ => ⟨rfl, rfl⟩, ?_⟩
    · rw [apply_filters, if_pos hFE]
    · intro h
      rw [h] at hFE
      exact Bool.noConfusion hFE
  · have hrok : ∃ v, (if cfg.rsiEnable = true then
        compute_rsi (List.map (fun x => x.c) candles) cfg.rsiPeriod
      else Except.ok none) = .ok v := by
      by_cases hre : cfg.rsiEnable = true
      · rw [if_pos hre]
        exact compute_rsi_isOk _ _ (hrsi hre)
      · rw [if_neg hre]
        exact ⟨none, rfl⟩
    obtain ⟨v, hv⟩ := hrok
    have hmok : ∃ w, (if cfg.macdEnable = true then
        compute_macd (List.map (fun x => x.c) candles)
          cfg.macdFast cfg.macdSlow cfg.macdSig
      else Except.ok none) = .ok w := by
      by_cases hme : cfg.macdEnable = true
      · rw [if_pos hme]
        exact compute_macd_isOk _ _ _ _ (hmacd hme)
      · rw [if_neg hme]
        exact ⟨none, rfl⟩
    obtain ⟨w, hw⟩ := hmok
    have happ : apply_filters cfg candles =
        .ok (combineOf cfg [rsiPassOf cfg v, (vpmPartOf cfg candles).1,
            (macdPartOf cfg w).1],
          ⟨v, (vpmPartOf cfg candles).2, (macdPartOf cfg w).2⟩) := by
      rw [apply_filters, if_neg hFE]
      split
      · next e heq =>
        rw [hv] at heq
        exact Except.noConfusion heq
      · next rsiVal heq =>
        rw [hv] at heq
        have hveq : v = rsiVal := (Except.ok.injEq _ _).mp heq
        subst hveq
        split
        · next e heq2 =>
          rw [hw] at heq2
          exact Except.noConfusion heq2
        · next macdInfo heq2 =>
          rw [hw] at heq2
          have hweq : w = macdInfo := (Except.ok.injEq _ _).mp heq2
          subst hweq
          rfl
    refine ⟨_, _, happ, ?_, ?_⟩
    · intro h
      exact absurd h hFE
    · intro _
      refine ⟨rsiPassOf cfg v, (vpmPartOf cfg candles).1, (macdPartOf cfg w).1,
        ?_, ?_, ?_, ?_, ?_, ?_, ?_⟩
      · intro h
        rw [rsiPassOf.eq_def, if_pos h]
      · intro hcr
        have hvn : v = none := by
          by_cases hre : cfg.rsiEnable = true
          · rw [if_pos hre, hcr] at hv
            exact (Except.ok.injEq _ _).mp hv.symm
          · rw [if_neg hre] at hv
            exact (Except.ok.injEq _ _).mp hv.symm
        rw [hvn]
        simp [rsiPassOf]
      · intro h
        rw [vpmPartOf, if_neg]
        rintro ⟨h1, h2⟩
        have := h h1
        omega
      · intro hme
        have hwn : w = none := by
          rw [if_neg (by rw [hme]; exact Bool.false_ne_true)] at hw
          exact (Except.ok.injEq _ _).mp hw.symm
        rw [hwn]
        rfl
      · intro hcm
        have hwn : w = none := by
          by_cases hme : cfg.macdEnable = true
          · rw [if_pos hme, hcm] at hw
            exact (Except.ok.injEq _ _).mp hw.symm
          · rw [if_neg hme] at hw
            exact (Except.ok.injEq _ _).mp hw.symm
        rw [hwn]
        rfl
      · intro h
        rw [combineOf, if_pos h]
        simp [List.all_cons, List.all_nil, Bool.and_assoc]
      · intro h
        rw [combineOf, h]
        rw [if_neg (by decide : ¬ ("ANY" : String) = "ALL")]
        simp [List.any_cons, List.any_nil, Bool.or_assoc]

/-- Witness for C8: every filter enabled with the default periods over
an empty candle history: RSI and MACD cannot be computed, the VPM
window is too short, so the verdict is a pass with empty details. -/
theorem apply_filters_spec_witness :
    ∃ ok det,
      apply_filters ⟨true, "ALL", true, "DEFAULT", 14, 50, 70, true, 5, 3000,
        true, "hist_up", 12, 26, 9⟩ [] = .ok (ok, det) ∧
      ((⟨true, "ALL", true, "DEFAULT", 14, 50, 70, true, 5, 3000,
        true, "hist_up", 12, 26, 9⟩ : FilterCfg).filtersEnable = false →
        ok = true ∧ det = ⟨none, none, none⟩) ∧
      ((⟨true, "ALL", true, "DEFAULT", 14, 50, 70, true, 5, 3000,
        true, "hist_up", 12, 26, 9⟩ : FilterCfg).filtersEnable = true →
        ∃ passRsi passVpm passMacd : Bool,
          ((⟨true, "ALL", true, "DEFAULT", 14, 50, 70, true, 5, 3000,
            true, "hist_up", 12, 26, 9⟩ : FilterCfg).rsiEnable = false →
            passRsi = true) ∧
          (compute_rsi (([] : List Candle).map (·.c))
              (⟨true, "ALL", true, "DEFAULT", 14, 50, 70, true, 5, 3000,
                true, "hist_up", 12, 26, 9⟩ : FilterCfg).rsiPeriod = .ok none →
            passRsi = true) ∧
          (((⟨true, "ALL", true, "DEFAULT", 14, 50, 70, true, 5, 3000,
            true, "hist_up", 12, 26, 9⟩ : FilterCfg).vpmEnable = true →
            ([] : List Candle).length <
              max (⟨true, "ALL", true, "DEFAULT", 14, 50, 70, true, 5, 3000,
                true, "hist_up", 12, 26, 9⟩ : FilterCfg).vpmLook 2) →
            passVpm = true) ∧
          ((⟨true, "ALL", true, "DEFAULT", 14, 50, 70, true, 5, 3000,
            true, "hist_up", 12, 26, 9⟩ : FilterCfg).macdEnable = false →
            passMacd = true) ∧
          (compute_macd (([] : List Candle).map (·.c))
              (⟨true, "ALL", true, "DEFAULT", 14, 50, 70, true, 5, 3000,
                true, "hist_up", 12, 26, 9⟩ : FilterCfg).macdFast
              (⟨true, "ALL", true, "DEFAULT", 14, 50, 70, true, 5, 3000,
                true, "hist_up", 12, 26, 9⟩ : FilterCfg).macdSlow
              (⟨true, "ALL", true, "DEFAULT", 14, 50, 70, true, 5, 3000,
                true, "hist_up", 12, 26, 9⟩ : FilterCfg).macdSig = .ok none →
            passMacd = true) ∧
          ((⟨true, "ALL", true, "DEFAULT", 14, 50, 70, true, 5, 3000,
            true, "hist_up", 12, 26, 9⟩ : FilterCfg).filterLogic = "ALL" →
            ok = (passRsi && passVpm && passMacd)) ∧
          ((⟨true, "ALL", true, "DEFAULT", 14, 50, 70, true, 5, 3000,
            true, "hist_up", 12, 26, 9⟩ : FilterCfg).filterLogic = "ANY" →
            ok = (passRsi || passVpm || passMacd))) :=
  apply_filters_spec
    ⟨true, "ALL", true, "DEFAULT", 14, 50, 70, true, 5, 3000,
      true, "hist_up", 12, 26, 9⟩ []
    (fun _ => by decide) (fun _ => by decide)

/-- Claim C8 as stated is false at a configuration it quantifies over:
with filtering enabled, RSI enabled with period 0, and one candle of
history, the RSI length guard passes (`1 < 0 + 1` is false) and
`sum(gains[:0]) / 0` raises ZeroDivisionError out of `apply_filters`
(the `.error` case of the embedding), so the call produces no verdict
at all — in particular not the claimed default-pass combination,
which would be `.ok` with a true verdict for this configuration
(every filter disabled or uncomputable, logic "ALL"). -/
theorem apply_filters_period_zero_cex :
    apply_filters ⟨true, "ALL", true, "DEFAULT", 0, 50, 70, false, 5, 3000,
      false, "hist_up", 12, 26, 9⟩ [⟨0, 1, 1, 1, 1, 1⟩] = .error () ∧
    apply_filters ⟨true, "ALL", true, "DEFAULT", 0, 50, 70, false, 5, 3000,
      false, "hist_up", 12, 26, 9⟩ [⟨0, 1, 1, 1, 1, 1⟩] ≠
      .ok (true, ⟨none, none, none⟩) := by
  have he : apply_filters ⟨true, "ALL", true, "DEFAULT", 0, 50, 70, false, 5,
      3000, false, "hist_up", 12, 26, 9⟩ [⟨0, 1, 1, 1, 1, 1⟩] = .error () := rfl
  refine ⟨he, ?_⟩
  intro h
  rw [he] at h
  exact Except.noConfusion h

theorem post_webhook_aux_spec (fuel : ℕ) (env : ℕ → Resp) :
    (post_webhook_aux fuel env).2.1 ≤ fuel ∧
    (∀ j, j + 1 < (post_webhook_aux fuel env).2.1 → is429B (env j) = true) ∧
    ((post_webhook_aux fuel env).1 = true ↔
      ∃ i, i < fuel ∧ is2xxB (env i) = true ∧
        ∀ j, j < i → is429B (env j) = true) ∧
    (∀ k (hk : k < (post_webhook_aux fuel env).2.2.length),
      (post_webhook_aux fuel env).2.2.get ⟨k, hk⟩ = waitOf (env k)) ∧
    (∀ j, j < (post_webhook_aux fuel env).2.2.length → is429B (env j) = true) ∧
    ((∀ j, j < fuel → is429B (env j) = true) →
      (post_webhook_aux fuel env).1 = false ∧
      (post_webhook_aux fuel env).2.1 = fuel ∧
      (post_webhook_aux fuel env).2.2.length = fuel) := by
  induction fuel generalizing env with
  | zero =>
    have he : post_webhook_aux 0 env = (false, 0, []) := rfl
    rw [he]
    dsimp only [List.length_nil]
    refine ⟨Nat.le_refl 0, ?_, ?_, ?_, ?_, ?_⟩
    · intro j hj
      exact absurd hj (by omega)
    · constructor
      · intro h
        exact Bool.noConfusion h
      · rintro ⟨i, hi, _⟩
        exact absurd hi (by omega)
    · intro k hk
      exact absurd hk (by omega)
    · intro j hj
      exact absurd hj (by omega)
    · intro _
      exact ⟨rfl, rfl, rfl⟩
  | succ fuel ih =>
    cases henv : env 0 with
    | exc =>
      have he : post_webhook_aux (fuel + 1) env = (false, 1, []) := by
        simp only [post_webhook_aux, henv]
      rw [he]
      dsimp only [List.length_nil]
      refine ⟨by omega, ?_, ?_, ?_, ?_, ?_⟩
      · intro j hj
        exact absurd hj (by omega)
      · constructor
        · intro h
          exact Bool.noConfusion h
        · rintro ⟨i, hi, h2, hall⟩
          cases i with
          | zero =>
            rw [henv] at h2
            exact Bool.noConfusion h2
          | succ i' =>
            have h0 := hall 0 (by omega)
            rw [henv] at h0
            exact Bool.noConfusion h0
      · intro k hk
        exact absurd hk (by omega)
      · intro j hj
        exact absurd hj (by omega)
      · intro hall
        have h0 := hall 0 (by omega)
        rw [henv] at h0
        exact Bool.noConfusion h0
    | status code body hdr =>
      by_cases h2xx : 200 ≤ code ∧ code < 300
      · have he : post_webhook_aux (fuel + 1) env = (true, 1, []) := by
          simp only [post_webhook_aux, henv, if_pos h2xx]
        rw [he]
        dsimp only [List.length_nil]
        refine ⟨by omega, ?_, ?_, ?_, ?_, ?_⟩
        · intro j hj
          exact absurd hj (by omega)
        · constructor
          · intro _
            refine ⟨0, by omega, ?_, ?_⟩
            · rw [henv]
              exact decide_eq_true h2xx
            · intro j hj
              exact absurd hj (by omega)
          · intro _
            rfl
        · intro k hk
          exact absurd hk (by omega)
        · intro j hj
          exact absurd hj (by omega)
        · intro hall
          have h0 := hall 0 (by omega)
          rw [henv] at h0
          have := of_decide_eq_true h0
          omega
      · by_cases h429 : code = 429
        · have he : post_webhook_aux (fuel + 1) env =
              ((post_webhook_aux fuel (fun i => env (i + 1))).1,
               (post_webhook_aux fuel (fun i => env (i + 1))).2.1 + 1,
               waitOf (env 0) ::
                 (post_webhook_aux fuel (fun i => env (i + 1))).2.2) := by
            simp only [post_webhook_aux, henv, if_neg h2xx, if_pos h429]
          obtain ⟨ih1, ih2, ih3, ih4, ih5, ih6⟩ := ih (fun i => env (i + 1))
          have h4290 : is429B (env 0) = true := by
            rw [henv]
            exact decide_eq_true h429
          rw [he]
          dsimp only [List.length_cons]
          refine ⟨by omega, ?_, ?_, ?_, ?_, ?_⟩
          · intro j hj
            cases j with
            | zero => exact h4290
            | succ j' =>
              exact ih2 j' (by omega)
          · rw [ih3]
            constructor
            · rintro ⟨i, hi, h2, hall⟩
              refine ⟨i + 1, by omega, h2, ?_⟩
              intro j hj
              cases j with
              | zero => exact h4290
              | succ j' => exact hall j' (by omega)
            · rintro ⟨i, hi, h2, hall⟩
              cases i with
              | zero =>
                rw [henv] at h2
                exact absurd (of_decide_eq_true h2) h2xx
              | succ i' =>
                exact ⟨i', by omega, h2, fun j hj => hall (j + 1) (by omega)⟩
          · intro k hk
            cases k with
            | zero => rfl
            | succ k' =>
              have hk' : k' <
                  (post_webhook_aux fuel (fun i => env (i + 1))).2.2.length := by
                omega
              simpa using ih4 k' hk'
          · intro j hj
            cases j with
            | zero => exact h4290
            | succ j' =>
              exact ih5 j' (by omega)
          · intro hall
            have hall' : ∀ j, j < fuel → is429B (env (j + 1)) = true := by
              intro j hj
              exact hall (j + 1) (by omega)
            obtain ⟨g1, g2, g3⟩ := ih6 hall'
            refine ⟨g1, by rw [g2], by rw [g3]⟩
        · have he : post_webhook_aux (fuel + 1) env = (false, 1, []) := by
            simp only [post_webhook_aux, henv, if_neg h2xx, if_neg h429]
          rw [he]
          dsimp only [List.length_nil]
          refine ⟨by omega, ?_, ?_, ?_, ?_, ?_⟩
          · intro j hj
            exact absurd hj (by omega)
          · constructor
            · intro h
              exact Bool.noConfusion h
            · rintro ⟨i, hi, h2, hall⟩
              cases i with
              | zero =>
                rw [henv] at h2
                exact absurd (of_decide_eq_true h2) h2xx
              | succ i' =>
                have h0 := hall 0 (by omega)
                rw [henv] at h0
                exact absurd (of_decide_eq_true h0) h429
          · intro k hk
            exact absurd hk (by omega)
          · intro j hj
            exact absurd hj (by omega)
          · intro hall
            have h0 := hall 0 (by omega)
            rw [henv] at h0
            exact absurd (of_decide_eq_true h0) h429

/-- Claim C9: webhook delivery makes at most 5 POST attempts; every
attempt that is followed by another one received a 429; delivery
succeeds iff some attempt within the budget got a 2xx response with
only 429s before it (so an exception or other non-success status on an
attempt ends delivery immediately with failure); the k-th sleep is the
retry duration computed from the k-th (429) response's body or
Retry-After header with default 1.0 clamped at 0; and when every
response is a 429 the loop gives up after exactly 5 attempts and 5
sleeps, returning failure. -/
theorem post_webhook_spec (env : ℕ → Resp) :
    (post_webhook_run env).2.1 ≤ 5 ∧
    (∀ j, j + 1 < (post_webhook_run env).2.1 → is429B (env j) = true) ∧
    ((post_webhook_run env).1 = true ↔
      ∃ i, i < 5 ∧ is2xxB (env i) = true ∧
        ∀ j, j < i → is429B (env j) = true) ∧
    (∀ k (hk : k < (post_webhook_run env).2.2.length),
      (post_webhook_run env).2.2.get ⟨k, hk⟩ = waitOf (env k)) ∧
    (∀ j, j < (post_webhook_run env).2.2.length → is429B (env j) = true) ∧
    ((∀ j, j < 5 → is429B (env j) = true) →
      (post_webhook_run env).1 = false ∧
      (post_webhook_run env).2.1 = 5 ∧
      (post_webhook_run env).2.2.length = 5) :=
  post_webhook_aux_spec 5 env

/-- Witness for C9: an endpoint that always answers 429 exhausts the
budget: failure after exactly 5 attempts and 5 sleeps. -/
theorem post_webhook_spec_witness :
    (post_webhook_run (fun _ => Resp.status 429 none none)).1 = false ∧
    (post_webhook_run (fun _ => Resp.status 429 none none)).2.1 = 5 ∧
    (post_webhook_run (fun _ => Resp.status 429 none none)).2.2.length = 5 :=
  (post_webhook_spec (fun _ => Resp.status 429 none none)).2.2.2.2.2
    (fun _ _ => rfl)

end Resonance
